import Mathlib

/-!
Verification development for the `cards` repository: a credit-card comparison
front-end (React/TypeScript) together with the contract of its
scrape → extract → validate → merge/export data pipeline.

The first part embeds the TypeScript data model (`src/types/card.ts`) and the
pure front-end logic (`src/App.tsx`, `src/lib/groq.ts`) as Lean definitions.
JavaScript `number` fields are modelled as `ℚ`, `T | null` fields as `Option`,
and JavaScript truthiness tests are translated explicitly where the code
relies on them.

The second part models the Python pipeline contract (merge precedence,
validation and confidence adjustment, export invariants) from the
specification, since the pipeline sources themselves are not part of the
checked tree.
-/

/-- Card network enumeration from `src/types/card.ts`. -/
inductive CardNetwork where
  | visa
  | mastercard
  | rupay
  | amex
  | diners
deriving DecidableEq, Repr

/-- Card tier enumeration from `src/types/card.ts`. -/
inductive CardType where
  | entryLevel
  | premium
  | superPremium
  | ultraPremium
  | business
deriving DecidableEq, Repr

/-- Employment type enumeration from `src/types/card.ts`. -/
inductive EmploymentType where
  | salaried
  | selfEmployed
  | businessOwner
deriving DecidableEq, Repr

/-- Reward unit enumeration (`'points' | 'cashback' | 'miles'`). -/
inductive RewardUnit where
  | points
  | cashback
  | miles
deriving DecidableEq, Repr

/-- Period enumeration (`'yearly' | 'quarterly' | 'monthly'`). -/
inductive RewardPeriod where
  | yearly
  | quarterly
  | monthly
deriving DecidableEq, Repr

/-- Discount frequency (`'per transaction' | 'per month' | 'per quarter'`). -/
inductive DiscountFrequency where
  | perTransaction
  | perMonth
  | perQuarter
deriving DecidableEq, Repr

structure FuelSurchargeWaiver where
  enabled : Bool
  maxPerMonth : Option ℚ
  minTransaction : Option ℚ
  maxTransaction : Option ℚ
deriving DecidableEq, Repr

structure CardFees where
  joiningFee : ℚ
  joiningFeeWaiver : Option String
  annualFee : ℚ
  annualFeeWaiver : Option String
  renewalFee : ℚ
  addOnCardFee : ℚ
  fuelSurchargeWaiver : FuelSurchargeWaiver
deriving DecidableEq, Repr

structure CardEligibility where
  minSalary : Option ℚ
  minITR : Option ℚ
  minCibilScore : Option ℚ
  employmentType : List EmploymentType
  minAge : ℚ
  maxAge : ℚ
  existingRelationship : Bool
  otherRequirements : Option (List String)
deriving DecidableEq, Repr

structure AcceleratedCategory where
  category : String
  rate : ℚ
  cap : Option ℚ
  unit : Option String
deriving DecidableEq, Repr

structure WelcomeBonus where
  points : Option ℚ
  value : Option ℚ
  condition : String
deriving DecidableEq, Repr

structure MilestoneReward where
  spend : ℚ
  reward : String
  period : Option RewardPeriod
deriving DecidableEq, Repr

structure CardRewards where
  rewardRate : ℚ
  rewardUnit : RewardUnit
  pointValue : ℚ
  acceleratedCategories : List AcceleratedCategory
  welcomeBonus : Option WelcomeBonus
  milestoneRewards : List MilestoneReward
  redemptionOptions : Option (List String)
deriving DecidableEq, Repr

structure LoungeSpendRequirement where
  amount : ℚ
  period : RewardPeriod
  visitsUnlocked : ℚ
deriving DecidableEq, Repr

structure LoungeAccessTier where
  freeVisits : ℚ
  perQuarter : Option Bool
  perYear : Option Bool
  program : String
  guestAccess : Option Bool
  guestFee : Option ℚ
  spendRequired : Option LoungeSpendRequirement
deriving DecidableEq, Repr

structure RailwayLounge where
  enabled : Bool
  visits : ℚ
deriving DecidableEq, Repr

structure CardLoungeAccess where
  domestic : Option LoungeAccessTier
  international : Option LoungeAccessTier
  railwayLounge : Option RailwayLounge
deriving DecidableEq, Repr

structure PlatformDiscount where
  name : String
  discount : String
  cap : Option ℚ
  minSpend : Option ℚ
  frequency : Option DiscountFrequency
deriving DecidableEq, Repr

structure CategoryOffer where
  category : String
  partner : String
  offer : String
  validTill : Option String
deriving DecidableEq, Repr

structure CardDiscountsAndOffers where
  platforms : List PlatformDiscount
  categories : List CategoryOffer
deriving DecidableEq, Repr

structure InterestRate where
  monthly : ℚ
  annual : ℚ
deriving DecidableEq, Repr

structure FeeWithMin where
  percent : ℚ
  min : ℚ
deriving DecidableEq, Repr

structure EMIFee where
  processingPercent : ℚ
  minAmount : ℚ
deriving DecidableEq, Repr

structure CardCharges where
  interestRate : InterestRate
  cashAdvanceFee : FeeWithMin
  foreignTxnFee : ℚ
  lateFee : ℚ
  overLimitFee : ℚ
  emiFee : EMIFee
  cardReplacementFee : ℚ
  statementFee : ℚ
  chequeReturnFee : Option ℚ
  outstandingBalanceFee : Option ℚ
deriving DecidableEq, Repr

structure InsuranceCover where
  airAccident : Option ℚ
  lostCard : Option ℚ
  purchaseProtection : Option ℚ
  travelInsurance : Option ℚ
  medicalEmergency : Option ℚ
deriving DecidableEq, Repr

structure GolfAccess where
  enabled : Bool
  freeGames : ℚ
  courses : Option (List String)
deriving DecidableEq, Repr

structure CardFeatures where
  contactless : Bool
  virtualCard : Bool
  addOnCards : ℚ
  insuranceCover : InsuranceCover
  concierge : Bool
  golfAccess : Option GolfAccess
  zeroLiability : Bool
  instantIssuance : Bool
  emiConversion : Bool
  rewardTransfer : Option Bool
  spendAnalytics : Option Bool
deriving DecidableEq, Repr

structure BasicInfo where
  name : String
  issuer : String
  network : List CardNetwork
  cardType : CardType
  imageUrl : String
  applyUrl : String
  description : Option String
deriving DecidableEq, Repr

structure CardMetadata where
  sourceUrl : String
  scrapedAt : String
  confidence : ℚ
  manualReview : Bool
  lastVerified : Option String
deriving DecidableEq, Repr

/-- The canonical card record (`CreditCard` in `src/types/card.ts`); this is
also the `CanonicalCard` output schema of the data pipeline (§3 of the spec:
the dataset file's shape is exactly the front-end schema). -/
structure CreditCard where
  id : String
  basicInfo : BasicInfo
  fees : CardFees
  eligibility : CardEligibility
  rewards : CardRewards
  loungeAccess : CardLoungeAccess
  discountsAndOffers : CardDiscountsAndOffers
  charges : CardCharges
  features : CardFeatures
  metadata : CardMetadata
deriving DecidableEq, Repr

/-- The dataset file shape (`CardsData` in `src/types/card.ts`, `Dataset` in §3). -/
structure Dataset where
  version : String
  lastUpdated : String
  cards : List CreditCard
deriving DecidableEq, Repr

/-- Filter object (`CardFilters` in `src/types/card.ts`); every field is
optional, mirroring the `?:` declarations. -/
structure CardFilters where
  issuer : Option (List String)
  network : Option (List CardNetwork)
  cardType : Option (List CardType)
  maxJoiningFee : Option ℚ
  maxAnnualFee : Option ℚ
  minRewardRate : Option ℚ
  hasDomesticLounge : Option Bool
  hasInternationalLounge : Option Bool
  maxMinSalary : Option ℚ
  hasWelcomeBonus : Option Bool
  categories : Option (List String)
deriving DecidableEq, Repr

/-- The empty filter object `{}`. -/
def CardFilters.empty : CardFilters :=
  { issuer := none, network := none, cardType := none, maxJoiningFee := none,
    maxAnnualFee := none, minRewardRate := none, hasDomesticLounge := none,
    hasInternationalLounge := none, maxMinSalary := none,
    hasWelcomeBonus := none, categories := none }

/-! ## Front-end logic from `src/App.tsx`

`filteredCards` and `toggleCardSelection` are pure functions of component
state; they are translated line by line, including the JavaScript truthiness
tests the code relies on (`filters.issuer?.length`, `card.eligibility.minSalary`). -/

/-- Line `if (filters.issuer?.length && !filters.issuer.includes(card.basicInfo.issuer)) return false`. -/
def rejectIssuer (f : CardFilters) (card : CreditCard) : Bool :=
  match f.issuer with
  | none => false
  | some l => !l.isEmpty && !(decide (card.basicInfo.issuer ∈ l))

/-- Line `if (filters.network?.length && !filters.network.some(n => card.basicInfo.network.includes(n))) return false`. -/
def rejectNetwork (f : CardFilters) (card : CreditCard) : Bool :=
  match f.network with
  | none => false
  | some l => !l.isEmpty && !(l.any fun n => decide (n ∈ card.basicInfo.network))

/-- Line `if (filters.cardType?.length && !filters.cardType.includes(card.basicInfo.cardType)) return false`. -/
def rejectCardType (f : CardFilters) (card : CreditCard) : Bool :=
  match f.cardType with
  | none => false
  | some l => !l.isEmpty && !(decide (card.basicInfo.cardType ∈ l))

/-- Line `if (filters.maxJoiningFee !== undefined && card.fees.joiningFee > filters.maxJoiningFee) return false`. -/
def rejectJoiningFee (f : CardFilters) (card : CreditCard) : Bool :=
  match f.maxJoiningFee with
  | none => false
  | some m => decide (m < card.fees.joiningFee)

/-- Line `if (filters.maxAnnualFee !== undefined && card.fees.annualFee > filters.maxAnnualFee) return false`. -/
def rejectAnnualFee (f : CardFilters) (card : CreditCard) : Bool :=
  match f.maxAnnualFee with
  | none => false
  | some m => decide (m < card.fees.annualFee)

/-- Line `if (filters.minRewardRate !== undefined && card.rewards.rewardRate < filters.minRewardRate) return false`. -/
def rejectRewardRate (f : CardFilters) (card : CreditCard) : Bool :=
  match f.minRewardRate with
  | none => false
  | some m => decide (card.rewards.rewardRate < m)

/-- Line `if (filters.hasDomesticLounge && !card.loungeAccess.domestic) return false`;
`filters.hasDomesticLounge` is truthy exactly when it is `true`. -/
def rejectDomesticLounge (f : CardFilters) (card : CreditCard) : Bool :=
  match f.hasDomesticLounge with
  | some true => card.loungeAccess.domestic.isNone
  | _ => false

/-- Line `if (filters.hasInternationalLounge && !card.loungeAccess.international) return false`. -/
def rejectInternationalLounge (f : CardFilters) (card : CreditCard) : Bool :=
  match f.hasInternationalLounge with
  | some true => card.loungeAccess.international.isNone
  | _ => false

/-- Line `if (filters.maxMinSalary !== undefined && card.eligibility.minSalary && card.eligibility.minSalary > filters.maxMinSalary) return false`;
a `number | null` value is truthy exactly when it is neither `null` nor `0`. -/
def rejectMinSalary (f : CardFilters) (card : CreditCard) : Bool :=
  match f.maxMinSalary with
  | none => false
  | some m =>
    match card.eligibility.minSalary with
    | none => false
    | some s => !(decide (s = 0)) && decide (m < s)

/-- Line `if (filters.hasWelcomeBonus && !card.rewards.welcomeBonus) return false`. -/
def rejectWelcomeBonus (f : CardFilters) (card : CreditCard) : Bool :=
  match f.hasWelcomeBonus with
  | some true => card.rewards.welcomeBonus.isNone
  | _ => false

/-- The predicate of the `cards.filter(card => ...)` expression computing
`filteredCards` in `src/App.tsx`: the card survives when no early `return
false` fires. -/
def filterCard (f : CardFilters) (card : CreditCard) : Bool :=
  !rejectIssuer f card && !rejectNetwork f card && !rejectCardType f card &&
  !rejectJoiningFee f card && !rejectAnnualFee f card &&
  !rejectRewardRate f card && !rejectDomesticLounge f card &&
  !rejectInternationalLounge f card && !rejectMinSalary f card &&
  !rejectWelcomeBonus f card

/-- `filteredCards` from `src/App.tsx`. -/
def filteredCards (f : CardFilters) (cards : List CreditCard) : List CreditCard :=
  cards.filter (filterCard f)

/-- `toggleCardSelection` from `src/App.tsx`: remove the id when present,
append it when absent and fewer than 4 are selected, otherwise keep the
selection unchanged. -/
def toggleCardSelection (prev : List String) (cardId : String) : List String :=
  if cardId ∈ prev then prev.filter (fun id => decide (id ≠ cardId))
  else if prev.length < 4 then prev ++ [cardId]
  else prev

/-! ## Chat-completion provider logic from `src/lib/groq.ts`

`ACTIVE_PROVIDER` is a module-level constant computed once from the
environment; `getChatCompletion` dispatches on it. The environment variable is
modelled as `Option String` (`none` = unset), and the JavaScript `|| 'groq'`
default treats the empty string as falsy. -/

/-- `const ACTIVE_PROVIDER = (import.meta.env.VITE_AI_PROVIDER as APIProvider) || 'groq'`. -/
def activeProvider (env : Option String) : String :=
  match env with
  | none => "groq"
  | some s => if s = "" then "groq" else s

/-- The two completion backends. -/
inductive Backend where
  | ollama
  | groq
deriving DecidableEq, Repr

/-- The backend `getChatCompletion` routes to: Ollama exactly when the active
provider string equals `"ollama"`, Groq in every other case. -/
def selectBackend (env : Option String) : Backend :=
  if activeProvider env = "ollama" then Backend.ollama else Backend.groq

/-- Chat message role (`'user' | 'assistant' | 'system'`). -/
inductive ChatRole where
  | user
  | assistant
  | system
deriving DecidableEq, Repr

structure ChatMessage where
  role : ChatRole
  content : String
deriving DecidableEq, Repr

/-- `getChatCompletion(messages, cards)` from `src/lib/groq.ts`, with the two
backend calls and the system-prompt builder injected as capabilities (they are
network effects). The dispatch is the module-level `ACTIVE_PROVIDER`, never a
per-call argument. -/
def getChatCompletion {α : Type} (env : Option String)
    (buildPrompt : List CreditCard → String)
    (ollamaCall groqCall : List ChatMessage → String → α)
    (messages : List ChatMessage) (cards : List CreditCard) : α :=
  let systemPrompt := buildPrompt cards
  if activeProvider env = "ollama" then ollamaCall messages systemPrompt
  else groqCall messages systemPrompt

/-! ### Multi-key Groq failover (the `getGroqCompletion` variant of `groq.ts`) -/

/-- Substring test on character lists. -/
def listContainsSub (hay sub : List Char) : Bool :=
  (List.range (hay.length + 1)).any fun i => decide ((hay.drop i).take sub.length = sub)

/-- `String.prototype.includes`. -/
def strContainsSub (s sub : String) : Bool :=
  listContainsSub s.toList sub.toList

/-- `String.prototype.toLowerCase`. -/
def toLowerStr (s : String) : String :=
  String.map Char.toLower s

/-- An error thrown by a Groq client: it may carry a numeric `status` and a
string `message` (either may be absent on a foreign error object). -/
structure ApiFailure where
  status : Option Nat
  message : Option String
deriving DecidableEq, Repr

/-- `isRateLimitError` from `groq.ts`: status 429, or a message containing
`'429'` or (lower-cased) `'rate limit'`. -/
def isRateLimitError (e : ApiFailure) : Bool :=
  decide (e.status = some 429) ||
  (match e.message with
   | some msg => strContainsSub msg "429" || strContainsSub (toLowerStr msg) "rate limit"
   | none => false)

/-- Result of `getGroqCompletion`: a completion, or one of its three failure
modes (no keys configured, a non-rate-limit error rethrown, all keys
rate-limited). -/
inductive GroqResult where
  | ok (response : String)
  | noKeys
  | fatal (e : ApiFailure)
  | exhausted (errs : List String)
deriving DecidableEq, Repr

/-- The `for` loop of `getGroqCompletion`: each client call either succeeds,
is rate-limited (recorded, try the next key), or fails otherwise (rethrown
immediately). The client outcomes are given in the already-shuffled order. -/
def tryClients : List (Except ApiFailure String) → List String → GroqResult
  | [], errs => GroqResult.exhausted errs
  | (Except.ok s) :: _, _ => GroqResult.ok s
  | (Except.error e) :: rest, errs =>
    if isRateLimitError e then tryClients rest (errs ++ ["rate limited"])
    else GroqResult.fatal e

/-- `getGroqCompletion` from `groq.ts`: throws immediately when no API keys
are configured, otherwise runs the failover loop over the shuffled clients. -/
def getGroqCompletion (outcomes : List (Except ApiFailure String)) : GroqResult :=
  if outcomes.isEmpty then GroqResult.noKeys else tryClients outcomes []

/-! ## Pipeline model (merger/exporter, extractor, validator)

The Python pipeline sources are not part of the checked tree (only the
front-end consumes its output), so the definitions below are modelled from
the specification (§3, §4.2–§4.4, §7). -/

/-- Modelled from the spec (§4.4): the replacement precedence for a new card
`n` against an existing record `e` with the same id — replace when the new
record's confidence is at least the existing confidence, or when the new
record was manually reviewed (`manualReview = false` beats
`manualReview = true`). -/
def beatsExisting (n e : CreditCard) : Bool :=
  decide (e.metadata.confidence ≤ n.metadata.confidence) ||
  (!n.metadata.manualReview && e.metadata.manualReview)

/-- One conflict-resolution step: keep the current record unless the new one
wins under the §4.4 precedence. -/
def recStep (cur n : CreditCard) : CreditCard :=
  if beatsExisting n cur then n else cur

/-- Resolve a same-id batch against a starting record, left to right. -/
def foldBeats (s : CreditCard) (batch : List CreditCard) : CreditCard :=
  batch.foldl recStep s

/-- Modelled from the spec (§4.4): insert one new card into the card list —
if the id already exists the matching entry is replaced exactly when the new
record wins the precedence, otherwise the list grows by the new card. -/
def upsertCard (cards : List CreditCard) (n : CreditCard) : List CreditCard :=
  if cards.any (fun e => decide (e.id = n.id)) then
    cards.map (fun e => if e.id = n.id then (if beatsExisting n e then n else e) else e)
  else cards ++ [n]

/-- Modelled from the spec (§4.4): merge a batch of new cards into the
existing card list, one card at a time. -/
def mergeCards (existing newCards : List CreditCard) : List CreditCard :=
  newCards.foldl upsertCard existing

/-- A conflict warning is surfaced for a new card exactly when an existing
entry with the same id is kept (the new record loses the precedence). -/
def warnConflict (cards : List CreditCard) (n : CreditCard) : Bool :=
  cards.any fun e => decide (e.id = n.id) && !beatsExisting n e

/-- Merge step threading the warning artifacts alongside the card list. -/
def upsertStep (acc : List CreditCard × List String) (n : CreditCard) :
    List CreditCard × List String :=
  (upsertCard acc.1 n, acc.2 ++ (if warnConflict acc.1 n then [n.id] else []))

/-- Modelled from the spec (§4.4, §7): merge returning both the card list and
the conflict-warning artifacts (conflicts are logged, never silently
dropped). -/
def mergeWithWarnings (existing newCards : List CreditCard) :
    List CreditCard × List String :=
  newCards.foldl upsertStep (existing, [])

/-- Modelled from the spec (§4.4): the version bump applied when the card
list actually changes (the concrete scheme is unspecified; only
content-sensitivity matters). -/
def bumpVersion (v : String) : String :=
  v ++ ".1"

/-- Modelled from the spec (§4.4): `merge(existingDataset, newCards)` — a
fresh `lastUpdated` timestamp and a version bump happen only when the card
list actually changes. -/
def mergeDataset (d : Dataset) (newCards : List CreditCard) (now : String) : Dataset :=
  let merged := mergeCards d.cards newCards
  if merged = d.cards then d
  else { version := bumpVersion d.version, lastUpdated := now, cards := merged }

/-! ### Extractor (§4.2) -/

/-- Raw fetched page (§3). -/
structure RawDocument where
  issuer : String
  sourceUrl : String
  fetchedAt : String
  rawText : String
  httpStatus : Nat
deriving DecidableEq, Repr

/-- Modelled from the spec (§3): `parsedFields` is a partial canonical
schema — each required top-level group of the canonical card may be missing
from the model's parsed output. -/
structure ParsedFields where
  basicInfo : Option BasicInfo
  fees : Option CardFees
  eligibility : Option CardEligibility
  rewards : Option CardRewards
  loungeAccess : Option CardLoungeAccess
  discountsAndOffers : Option CardDiscountsAndOffers
  charges : Option CardCharges
  features : Option CardFeatures
deriving DecidableEq, Repr

/-- Number of required top-level groups in the canonical schema. -/
def requiredGroupCount : ℕ := 8

/-- How many required groups the parsed output populated. -/
def populatedGroupCount (pf : ParsedFields) : ℕ :=
  (if pf.basicInfo.isSome then 1 else 0) + (if pf.fees.isSome then 1 else 0) +
  (if pf.eligibility.isSome then 1 else 0) + (if pf.rewards.isSome then 1 else 0) +
  (if pf.loungeAccess.isSome then 1 else 0) + (if pf.discountsAndOffers.isSome then 1 else 0) +
  (if pf.charges.isSome then 1 else 0) + (if pf.features.isSome then 1 else 0)

/-- Modelled from the spec (§4.2): heuristic confidence starts at 1.0 and is
reduced proportionally to the fraction of required fields that are missing,
i.e. it equals the populated fraction. -/
def heuristicConfidence (pf : ParsedFields) : ℚ :=
  (populatedGroupCount pf : ℚ) / (requiredGroupCount : ℚ)

/-- Extraction candidate (§3), including the manual-review mark the extractor
forces on a parse failure (§4.2). -/
structure ExtractionCandidate where
  sourceUrl : String
  extractedAt : String
  modelId : String
  rawModelResponse : String
  parsedFields : Option ParsedFields
  extractionConfidence : ℚ
  manualReview : Bool
deriving DecidableEq, Repr

/-- Modelled from the spec (§4.2): `extract(doc, schema)` with the completion
endpoint and the structured parser injected as capabilities. A parse failure
is recoverable: the candidate is returned (never thrown) with confidence 0
and `manualReview` forced true. -/
def extract (now : String) (completion : String → String)
    (parse : String → Option ParsedFields) (doc : RawDocument) :
    Except String ExtractionCandidate :=
  match parse (completion doc.rawText) with
  | none => Except.ok
      { sourceUrl := doc.sourceUrl, extractedAt := now, modelId := "llm",
        rawModelResponse := completion doc.rawText, parsedFields := none,
        extractionConfidence := 0, manualReview := true }
  | some pf => Except.ok
      { sourceUrl := doc.sourceUrl, extractedAt := now, modelId := "llm",
        rawModelResponse := completion doc.rawText, parsedFields := some pf,
        extractionConfidence := heuristicConfidence pf, manualReview := false }

/-- Extract a whole batch; one bad page never aborts the batch. -/
def extractBatch (now : String) (completion : String → String)
    (parse : String → Option ParsedFields) (docs : List RawDocument) :
    List (Except String ExtractionCandidate) :=
  docs.map (extract now completion parse)

/-! ### Schema validator (§4.3) -/

/-- A field-level validation finding. -/
structure FieldIssue where
  field : String
  reason : String
deriving DecidableEq, Repr

/-- Validation report (§3). -/
structure ValidationReport where
  candidateRef : String
  errors : List FieldIssue
  warnings : List FieldIssue
  adjustedConfidence : ℚ
  manualReviewRequired : Bool
deriving DecidableEq, Repr

/-- Errors for required groups missing from the parsed output. -/
def missingGroupErrors (pf : Option ParsedFields) : List FieldIssue :=
  match pf with
  | none =>
    [⟨"basicInfo", "missing"⟩, ⟨"fees", "missing"⟩, ⟨"eligibility", "missing"⟩,
     ⟨"rewards", "missing"⟩, ⟨"loungeAccess", "missing"⟩,
     ⟨"discountsAndOffers", "missing"⟩, ⟨"charges", "missing"⟩,
     ⟨"features", "missing"⟩]
  | some p =>
    (if p.basicInfo.isNone then [⟨"basicInfo", "missing"⟩] else []) ++
    (if p.fees.isNone then [⟨"fees", "missing"⟩] else []) ++
    (if p.eligibility.isNone then [⟨"eligibility", "missing"⟩] else []) ++
    (if p.rewards.isNone then [⟨"rewards", "missing"⟩] else []) ++
    (if p.loungeAccess.isNone then [⟨"loungeAccess", "missing"⟩] else []) ++
    (if p.discountsAndOffers.isNone then [⟨"discountsAndOffers", "missing"⟩] else []) ++
    (if p.charges.isNone then [⟨"charges", "missing"⟩] else []) ++
    (if p.features.isNone then [⟨"features", "missing"⟩] else [])

/-- Range errors (§4.3, §8): negative monetary fields are invalid — null is
reserved for unknown, 0 means confirmed free, negatives are never valid. -/
def rangeErrors (pf : Option ParsedFields) : List FieldIssue :=
  match pf with
  | none => []
  | some p =>
    (match p.fees with
     | none => []
     | some fees =>
       (if fees.joiningFee < 0 then [⟨"fees.joiningFee", "negative amount"⟩] else []) ++
       (if fees.annualFee < 0 then [⟨"fees.annualFee", "negative amount"⟩] else []))

/-- Range warnings (§4.3): `minAge ≤ maxAge`, and the monthly/annual interest
relationship (divergence above 5% is flagged). -/
def rangeWarnings (pf : Option ParsedFields) : List FieldIssue :=
  match pf with
  | none => []
  | some p =>
    (match p.eligibility with
     | none => []
     | some el =>
       if el.maxAge < el.minAge then [⟨"eligibility.minAge", "minAge exceeds maxAge"⟩]
       else []) ++
    (match p.charges with
     | none => []
     | some ch =>
       if (5 : ℚ) / 100 * ch.interestRate.annual <
          |ch.interestRate.annual - ch.interestRate.monthly * 12| then
         [⟨"charges.interestRate", "monthly and annual rates diverge"⟩]
       else [])

/-- Weight of a hard error in the confidence penalty. -/
def errorWeight : ℚ := 1 / 4

/-- Weight of a warning in the confidence penalty (a missing required field
penalizes more than an out-of-range warning). -/
def warningWeight : ℚ := 1 / 20

/-- Modelled from the spec (§4.3): the penalty scales with the count and
severity of violations, capped at 1. -/
def errorPenalty (errors warnings : List FieldIssue) : ℚ :=
  min 1 (errorWeight * errors.length + warningWeight * warnings.length)

/-- Modelled from the spec (§4.3): `validate(candidate)` — aggregate the
findings, compute `adjustedConfidence = extractionConfidence × (1 −
errorPenalty)`, and set `manualReviewRequired` exactly when a required field
is missing/invalid or the adjusted confidence falls below the threshold. -/
def validate (threshold : ℚ) (cand : ExtractionCandidate) : ValidationReport :=
  let errors := missingGroupErrors cand.parsedFields ++ rangeErrors cand.parsedFields
  let warnings := rangeWarnings cand.parsedFields
  let adjusted := cand.extractionConfidence * (1 - errorPenalty errors warnings)
  { candidateRef := cand.sourceUrl, errors := errors, warnings := warnings,
    adjustedConfidence := adjusted,
    manualReviewRequired := !errors.isEmpty || decide (adjusted < threshold) }

/-! ### Exporter (§4.4) -/

/-- The stable slug id (§3): lowercase, hyphenated, derived from issuer and
name. -/
def slugify (s : String) : String :=
  String.map (fun ch => if ch = ' ' then '-' else ch) (toLowerStr s)

/-- Build the canonical card for a validated candidate. Every required group
must be present in the parsed output — the canonical schema has no optional
groups — and the metadata mirrors the validation report (§3):
`metadata.confidence` is the adjusted confidence, `metadata.manualReview`
mirrors `manualReviewRequired`. -/
def buildCard (cand : ExtractionCandidate) (report : ValidationReport) :
    Option CreditCard :=
  match cand.parsedFields with
  | none => none
  | some pf =>
    match pf.basicInfo, pf.fees, pf.eligibility, pf.rewards, pf.loungeAccess,
          pf.discountsAndOffers, pf.charges, pf.features with
    | some bi, some fees, some el, some rw, some la, some dis, some ch, some ft =>
      some
        { id := slugify (bi.issuer ++ "-" ++ bi.name),
          basicInfo := bi, fees := fees, eligibility := el, rewards := rw,
          loungeAccess := la, discountsAndOffers := dis, charges := ch,
          features := ft,
          metadata :=
            { sourceUrl := cand.sourceUrl, scrapedAt := cand.extractedAt,
              confidence := report.adjustedConfidence,
              manualReview := report.manualReviewRequired,
              lastVerified := none } }
    | _, _, _, _, _, _, _, _ => none

/-- Validate a batch of candidates and build the canonical cards that can be
fully assembled. -/
def exportCards (threshold : ℚ) (cands : List ExtractionCandidate) :
    List CreditCard :=
  cands.filterMap fun c => buildCard c (validate threshold c)

/-- Modelled from the spec (§4.4): an export run merges the freshly validated
cards into the previous dataset. -/
def exportDataset (threshold : ℚ) (d : Dataset)
    (cands : List ExtractionCandidate) (now : String) : Dataset :=
  mergeDataset d (exportCards threshold cands) now

/-- The §8 schema-completeness invariant on one exported card: confidence in
[0,1], and a card not flagged for manual review has confidence at least the
threshold. Presence of the required fields is enforced by the `CreditCard`
type itself (all required fields are total). -/
def cardWellFormed (threshold : ℚ) (c : CreditCard) : Prop :=
  0 ≤ c.metadata.confidence ∧ c.metadata.confidence ≤ 1 ∧
  (c.metadata.manualReview = false → threshold ≤ c.metadata.confidence)

/-! ## Claim-side (declarative) predicates and helper definitions -/

/-- The declarative reading of the filter claim: a card passes exactly the
conjunction of the active constraints — issuer membership, network overlap,
card-type membership, fee bounds, reward-rate lower bound, lounge presence,
a salary cap that a null `minSalary` always passes, and welcome-bonus
presence. -/
def passesFilters (f : CardFilters) (card : CreditCard) : Prop :=
  (∀ l, f.issuer = some l → l ≠ [] → card.basicInfo.issuer ∈ l) ∧
  (∀ l, f.network = some l → l ≠ [] → ∃ n ∈ l, n ∈ card.basicInfo.network) ∧
  (∀ l, f.cardType = some l → l ≠ [] → card.basicInfo.cardType ∈ l) ∧
  (∀ m, f.maxJoiningFee = some m → card.fees.joiningFee ≤ m) ∧
  (∀ m, f.maxAnnualFee = some m → card.fees.annualFee ≤ m) ∧
  (∀ m, f.minRewardRate = some m → m ≤ card.rewards.rewardRate) ∧
  (f.hasDomesticLounge = some true → card.loungeAccess.domestic ≠ none) ∧
  (f.hasInternationalLounge = some true → card.loungeAccess.international ≠ none) ∧
  (∀ m, f.maxMinSalary = some m → ∀ s, card.eligibility.minSalary = some s → s ≤ m) ∧
  (f.hasWelcomeBonus = some true → card.rewards.welcomeBonus ≠ none)

/-- The amended declarative filter predicate: identical to `passesFilters`
except that a card whose `eligibility.minSalary` is null **or zero** always
passes the `maxMinSalary` constraint (JavaScript truthiness treats the
number 0 like null). -/
def passesFiltersAmended (f : CardFilters) (card : CreditCard) : Prop :=
  (∀ l, f.issuer = some l → l ≠ [] → card.basicInfo.issuer ∈ l) ∧
  (∀ l, f.network = some l → l ≠ [] → ∃ n ∈ l, n ∈ card.basicInfo.network) ∧
  (∀ l, f.cardType = some l → l ≠ [] → card.basicInfo.cardType ∈ l) ∧
  (∀ m, f.maxJoiningFee = some m → card.fees.joiningFee ≤ m) ∧
  (∀ m, f.maxAnnualFee = some m → card.fees.annualFee ≤ m) ∧
  (∀ m, f.minRewardRate = some m → m ≤ card.rewards.rewardRate) ∧
  (f.hasDomesticLounge = some true → card.loungeAccess.domestic ≠ none) ∧
  (f.hasInternationalLounge = some true → card.loungeAccess.international ≠ none) ∧
  (∀ m, f.maxMinSalary = some m → ∀ s, card.eligibility.minSalary = some s → s ≠ 0 → s ≤ m) ∧
  (f.hasWelcomeBonus = some true → card.rewards.welcomeBonus ≠ none)

/-- A client outcome that the failover loop skips past: an error satisfying
the rate-limit test. -/
def rateLimitedOutcome (o : Except ApiFailure String) : Prop :=
  ∃ e, o = Except.error e ∧ isRateLimitError e = true

/-- Whether some card in the list carries the given id. -/
def hasId (cards : List CreditCard) (i : String) : Bool :=
  cards.any fun e => decide (e.id = i)

/-- The pointwise action of `upsertCard` on one stored entry when the new
card's id is already present. -/
def applyOne (n e : CreditCard) : CreditCard :=
  if e.id = n.id then (if beatsExisting n e then n else e) else e

/-! ### Concrete sample data for witnesses -/

/-- A concrete lounge tier used by the sample card. -/
def sampleTier : LoungeAccessTier :=
  { freeVisits := 8, perQuarter := some true, perYear := none,
    program := "Visa Lounge", guestAccess := some false, guestFee := some 2,
    spendRequired := none }

/-- A fully concrete card, parameterized by the fields the witnesses vary. -/
def sampleCard (i : String) (minSalary : Option ℚ) (conf : ℚ) (mr : Bool) :
    CreditCard :=
  { id := i,
    basicInfo :=
      { name := "Sample Gold", issuer := "Sample Bank",
        network := [CardNetwork.visa], cardType := CardType.premium,
        imageUrl := "img", applyUrl := "apply", description := none },
    fees :=
      { joiningFee := 500, joiningFeeWaiver := none, annualFee := 500,
        annualFeeWaiver := some "Spend 3L", renewalFee := 500,
        addOnCardFee := 0,
        fuelSurchargeWaiver :=
          { enabled := true, maxPerMonth := some 250, minTransaction := some 400,
            maxTransaction := some 5000 } },
    eligibility :=
      { minSalary := minSalary, minITR := none, minCibilScore := some 750,
        employmentType := [EmploymentType.salaried], minAge := 21, maxAge := 60,
        existingRelationship := false, otherRequirements := none },
    rewards :=
      { rewardRate := 4, rewardUnit := RewardUnit.points, pointValue := 1 / 4,
        acceleratedCategories := [], welcomeBonus := none,
        milestoneRewards := [], redemptionOptions := none },
    loungeAccess :=
      { domestic := some sampleTier, international := none, railwayLounge := none },
    discountsAndOffers := { platforms := [], categories := [] },
    charges :=
      { interestRate := { monthly := 7 / 2, annual := 42 },
        cashAdvanceFee := { percent := 5 / 2, min := 500 }, foreignTxnFee := 7 / 2,
        lateFee := 950, overLimitFee := 600,
        emiFee := { processingPercent := 1, minAmount := 99 },
        cardReplacementFee := 100, statementFee := 0, chequeReturnFee := none,
        outstandingBalanceFee := none },
    features :=
      { contactless := true, virtualCard := true, addOnCards := 2,
        insuranceCover :=
          { airAccident := none, lostCard := some 100000,
            purchaseProtection := none, travelInsurance := none,
            medicalEmergency := none },
        concierge := false, golfAccess := none, zeroLiability := true,
        instantIssuance := false, emiConversion := true, rewardTransfer := none,
        spendAnalytics := none },
    metadata :=
      { sourceUrl := "https://sample.example/card", scrapedAt := "2026-01-01",
        confidence := conf, manualReview := mr, lastVerified := none } }

/-- A concrete parsed-fields value with every required group populated,
taken from the sample card. -/
def sampleParsed : ParsedFields :=
  { basicInfo := some (sampleCard "s" none 1 false).basicInfo,
    fees := some (sampleCard "s" none 1 false).fees,
    eligibility := some (sampleCard "s" none 1 false).eligibility,
    rewards := some (sampleCard "s" none 1 false).rewards,
    loungeAccess := some (sampleCard "s" none 1 false).loungeAccess,
    discountsAndOffers := some (sampleCard "s" none 1 false).discountsAndOffers,
    charges := some (sampleCard "s" none 1 false).charges,
    features := some (sampleCard "s" none 1 false).features }

/-- A concrete extraction candidate with the sample parsed fields. -/
def sampleCandidate : ExtractionCandidate :=
  { sourceUrl := "https://sample.example/card", extractedAt := "2026-01-02",
    modelId := "llm", rawModelResponse := "resp",
    parsedFields := some sampleParsed, extractionConfidence := 9 / 10,
    manualReview := false }

/-- A concrete raw document. -/
def sampleDoc : RawDocument :=
  { issuer := "Sample Bank", sourceUrl := "https://sample.example/card",
    fetchedAt := "2026-01-01", rawText := "page text", httpStatus := 200 }

/-- Invariant relating the two conflict-resolution folds of the same batch
started from seeds `a` and `b`, where `b`'s fold was seeded at `x`: either
`b` still is `x`, or the two folds agree, or `b` sits strictly below `a` in
confidence while being at least as review-flagged. -/
def mergeInv (x a b : CreditCard) : Prop :=
  b = x ∨ a = b ∨
  (b.metadata.confidence < a.metadata.confidence ∧
   (a.metadata.manualReview = true → b.metadata.manualReview = true))

/-! ## Theorems -/

theorem beatsExisting_refl (c : CreditCard) : beatsExisting c c = true := by
  simp [beatsExisting]

theorem mergeInv_step (x a b u : CreditCard) (h : mergeInv x a b) :
    mergeInv x (recStep a u) (recStep b u) := by
  unfold recStep
  by_cases hua : beatsExisting u a = true <;> by_cases hub : beatsExisting u b = true
  · simp only [hua, hub, if_pos]
    exact Or.inr (Or.inl rfl)
  · simp only [hua, hub, if_pos, if_neg, Bool.not_eq_true]
    rcases h with hbx | hab | ⟨hc, hm⟩
    · left; simp [hbx]
    · exact absurd hua (by rw [hab]; simp [hub])
    · exfalso
      simp only [beatsExisting, Bool.or_eq_true, decide_eq_true_eq,
        Bool.and_eq_true, Bool.not_eq_true'] at hua hub
      push_neg at hub
      rcases hua with hle | ⟨humr, hamr⟩
      · exact absurd hle (by push_neg; linarith [hub.1])
      · exact absurd (hub.2 humr) (by simp [hm hamr])
  · simp only [hua, hub, if_pos, if_neg, Bool.not_eq_true]
    right; right
    simp only [beatsExisting, Bool.or_eq_true, decide_eq_true_eq,
      Bool.and_eq_true, Bool.not_eq_true'] at hua
    push_neg at hua
    refine ⟨hua.1, fun hmr => ?_⟩
    by_contra hum
    exact absurd (hua.2 (by simpa using hum)) (by simp [hmr])
  · simp only [hua, hub, if_neg, Bool.not_eq_true]
    exact h

theorem mergeInv_fold (x : CreditCard) (L : List CreditCard) :
    ∀ a b, mergeInv x a b → mergeInv x (foldBeats a L) (foldBeats b L) := by
  induction L with
  | nil => intro a b h; simpa [foldBeats] using h
  | cons u t ih =>
    intro a b h
    simpa [foldBeats] using ih (recStep a u) (recStep b u) (mergeInv_step x a b u h)

theorem beats_fold_seed (x e : CreditCard) (L : List CreditCard)
    (h : beatsExisting x (foldBeats e L) = true) :
    beatsExisting x (foldBeats x L) = true := by
  rcases mergeInv_fold x L e x (Or.inl rfl) with hbx | hab | ⟨hc, hm⟩
  · rw [hbx]; exact beatsExisting_refl x
  · rwa [← hab]
  · simp only [beatsExisting, Bool.or_eq_true, decide_eq_true_eq,
      Bool.and_eq_true, Bool.not_eq_true'] at h ⊢
    rcases h with hle | ⟨hxmr, hamr⟩
    · left; linarith
    · right; exact ⟨hxmr, hm hamr⟩

theorem foldBeats_append_single (s u : CreditCard) (M : List CreditCard) :
    foldBeats s (M ++ [u]) = recStep (foldBeats s M) u := by
  simp [foldBeats, List.foldl_append]

theorem foldBeats_idem (e : CreditCard) (L : List CreditCard) :
    foldBeats (foldBeats e L) L = foldBeats e L := by
  induction L using List.reverseRecOn with
  | nil => rfl
  | append_singleton M u ih =>
    by_cases hu : beatsExisting u (foldBeats e M) = true
    · have hw : foldBeats e (M ++ [u]) = u := by
        rw [foldBeats_append_single]; simp [recStep, hu]
      rw [hw, foldBeats_append_single]
      have hb := beats_fold_seed u e M hu
      simp [recStep, hb]
    · have hw : foldBeats e (M ++ [u]) = foldBeats e M := by
        rw [foldBeats_append_single]; simp [recStep, hu]
      rw [hw, foldBeats_append_single, ih]
      simp [recStep, hu]

theorem applyOne_id (n e : CreditCard) : (applyOne n e).id = e.id := by
  unfold applyOne
  split_ifs with h1 h2
  · exact h1.symm
  · rfl
  · rfl

theorem upsertCard_eq (C : List CreditCard) (n : CreditCard) :
    upsertCard C n = if hasId C n.id = true then C.map (applyOne n) else C ++ [n] := by
  unfold upsertCard hasId applyOne
  rfl

theorem hasId_map_applyOne (C : List CreditCard) (n : CreditCard) (i : String) :
    hasId (C.map (applyOne n)) i = hasId C i := by
  simp [hasId, List.any_map, Function.comp_def, applyOne_id]

theorem hasId_upsert (C : List CreditCard) (n : CreditCard) (i : String) :
    hasId (upsertCard C n) i = (hasId C i || decide (n.id = i)) := by
  rw [upsertCard_eq]
  by_cases h : hasId C n.id = true
  · rw [if_pos h, hasId_map_applyOne]
    by_cases hni : n.id = i
    · subst hni
      simp [h]
    · simp [hni]
  · rw [if_neg h]
    simp [hasId]

theorem hasId_merge_mono (N : List CreditCard) :
    ∀ D i, hasId D i = true → hasId (mergeCards D N) i = true := by
  induction N with
  | nil => intro D i h; simpa [mergeCards] using h
  | cons n N ih =>
    intro D i h
    have h1 : mergeCards D (n :: N) = mergeCards (upsertCard D n) N := by
      simp [mergeCards]
    rw [h1]
    exact ih _ i (by rw [hasId_upsert, h]; rfl)

theorem merge_hasId_new (N : List CreditCard) :
    ∀ D, ∀ n ∈ N, hasId (mergeCards D N) n.id = true := by
  induction N with
  | nil => intro D n hn; cases hn
  | cons m N ih =>
    intro D n hn
    have h1 : mergeCards D (m :: N) = mergeCards (upsertCard D m) N := by
      simp [mergeCards]
    rw [h1]
    rcases List.mem_cons.mp hn with rfl | hn'
    · exact hasId_merge_mono N _ n.id (by rw [hasId_upsert]; simp)
    · exact ih _ n hn'

theorem foldBeats_cons (s n : CreditCard) (L : List CreditCard) :
    foldBeats s (n :: L) = foldBeats (recStep s n) L := by
  simp [foldBeats]

theorem merge_map_form (N : List CreditCard) :
    ∀ M, (∀ n ∈ N, hasId M n.id = true) →
    mergeCards M N =
      M.map (fun e => foldBeats e (N.filter fun m => decide (m.id = e.id))) := by
  induction N with
  | nil =>
    intro M _
    simp [mergeCards, foldBeats]
  | cons n N ih =>
    intro M hM
    have hn : hasId M n.id = true := hM n (by simp)
    have h1 : mergeCards M (n :: N) = mergeCards (M.map (applyOne n)) N := by
      simp only [mergeCards, List.foldl_cons]
      rw [upsertCard_eq, if_pos hn]
    rw [h1, ih (M.map (applyOne n))
      (fun m hm => by rw [hasId_map_applyOne]; exact hM m (List.mem_cons_of_mem n hm))]
    rw [List.map_map]
    apply List.map_congr_left
    intro e _
    simp only [Function.comp_apply, applyOne_id]
    by_cases he : e.id = n.id
    · have ha : applyOne n e = recStep e n := by simp [applyOne, recStep, he]
      have hf : (n :: N).filter (fun m => decide (m.id = e.id)) =
          n :: N.filter (fun m => decide (m.id = e.id)) := by
        simp [List.filter_cons, he.symm]
      rw [ha, hf, foldBeats_cons]
    · have ha : applyOne n e = e := by simp [applyOne, he]
      have hne' : ¬ n.id = e.id := fun h => he h.symm
      have hf : (n :: N).filter (fun m => decide (m.id = e.id)) =
          N.filter (fun m => decide (m.id = e.id)) := by
        simp [List.filter_cons, hne']
      rw [ha, hf]

theorem merge_mem_seed (N : List CreditCard) :
    ∀ D e, e ∈ mergeCards D N →
      ∃ s, s.id = e.id ∧ e = foldBeats s (N.filter fun m => decide (m.id = e.id)) ∧
        (s ∈ D ∨ (s ∈ N.filter (fun m => decide (m.id = e.id)) ∧ hasId D e.id = false)) := by
  induction N with
  | nil =>
    intro D e he
    exact ⟨e, rfl, by simp [foldBeats], Or.inl (by simpa [mergeCards] using he)⟩
  | cons n N ih =>
    intro D e he
    have he' : e ∈ mergeCards (upsertCard D n) N := by
      simpa [mergeCards] using he
    obtain ⟨s', hid, hfold, hsrc⟩ := ih (upsertCard D n) e he'
    by_cases hne : n.id = e.id
    · have hf : (n :: N).filter (fun m => decide (m.id = e.id)) =
          n :: N.filter (fun m => decide (m.id = e.id)) := by
        simp [List.filter_cons, hne]
      rcases hsrc with hmem | ⟨_, habs⟩
      · by_cases hpres : hasId D n.id = true
        · rw [upsertCard_eq, if_pos hpres] at hmem
          obtain ⟨d, hd, hde⟩ := List.mem_map.mp hmem
          by_cases hdn : d.id = n.id
          · refine ⟨d, ?_, ?_, Or.inl hd⟩
            · rw [← applyOne_id n d, hde, hid]
            · rw [hf, foldBeats_cons]
              have : recStep d n = s' := by
                rw [← hde]; simp [applyOne, recStep, hdn]
              rw [this]; exact hfold
          · exfalso
            apply hdn
            have : applyOne n d = d := by simp [applyOne, hdn]
            rw [this] at hde
            rw [hde, hid, ← hne]
        · rw [upsertCard_eq, if_neg hpres] at hmem
          rcases List.mem_append.mp hmem with hD | hsing
          · exfalso
            apply hpres
            have : s'.id = n.id := by rw [hid, ← hne]
            exact List.any_eq_true.mpr ⟨s', hD, by simp [this]⟩
          · have hsn : s' = n := by simpa using hsing
            subst hsn
            refine ⟨s', hid, ?_, Or.inr ⟨by rw [hf]; exact List.mem_cons_self _ _, ?_⟩⟩
            · rw [hf, foldBeats_cons]
              have : recStep s' s' = s' := by simp [recStep, beatsExisting_refl]
              rw [this]; exact hfold
            · rw [← hid]
              simpa using hpres
      · exfalso
        rw [hasId_upsert, hne] at habs
        simp at habs
    · have hf : (n :: N).filter (fun m => decide (m.id = e.id)) =
          N.filter (fun m => decide (m.id = e.id)) := by
        simp [List.filter_cons, hne]
      rcases hsrc with hmem | ⟨hfil, habs⟩
      · by_cases hpres : hasId D n.id = true
        · rw [upsertCard_eq, if_pos hpres] at hmem
          obtain ⟨d, hd, hde⟩ := List.mem_map.mp hmem
          have hdn : d.id ≠ n.id := by
            intro hcon
            apply hne
            rw [← hid, ← hde, applyOne_id, hcon]
          have hsd : s' = d := by rw [← hde]; simp [applyOne, hdn]
          subst hsd
          exact ⟨s', hid, by rw [hf]; exact hfold, Or.inl hd⟩
        · rw [upsertCard_eq, if_neg hpres] at hmem
          rcases List.mem_append.mp hmem with hD | hsing
          · exact ⟨s', hid, by rw [hf]; exact hfold, Or.inl hD⟩
          · exfalso
            apply hne
            have hsn : s' = n := by simpa using hsing
            rw [← hid, hsn]
      · rw [hasId_upsert] at habs
        simp only [Bool.or_eq_false_iff] at habs
        exact ⟨s', hid, by rw [hf]; exact hfold, Or.inr ⟨by rw [hf]; exact hfil, habs.1⟩⟩

theorem merge_self_absorbed (N D : List CreditCard) :
    ∀ e ∈ mergeCards D N, foldBeats e (N.filter fun m => decide (m.id = e.id)) = e := by
  intro e he
  obtain ⟨s, _, hfold, _⟩ := merge_mem_seed N D e he
  calc foldBeats e (N.filter fun m => decide (m.id = e.id))
      = foldBeats (foldBeats s (N.filter fun m => decide (m.id = e.id)))
          (N.filter fun m => decide (m.id = e.id)) := by rw [← hfold]
    _ = foldBeats s (N.filter fun m => decide (m.id = e.id)) := foldBeats_idem _ _
    _ = e := hfold.symm

theorem mergeCards_idem (D N : List CreditCard) :
    mergeCards (mergeCards D N) N = mergeCards D N := by
  rw [merge_map_form N (mergeCards D N) (fun n hn => merge_hasId_new N D n hn)]
  conv_rhs => rw [← List.map_id (mergeCards D N)]
  exact List.map_congr_left (fun e he => merge_self_absorbed N D e he)

theorem merge_mem_source (N : List CreditCard) :
    ∀ D e, e ∈ mergeCards D N → e ∈ D ∨ e ∈ N := by
  induction N with
  | nil => intro D e he; exact Or.inl (by simpa [mergeCards] using he)
  | cons n N ih =>
    intro D e he
    have he' : e ∈ mergeCards (upsertCard D n) N := by
      simpa [mergeCards] using he
    rcases ih _ e he' with hup | hN
    · rw [upsertCard_eq] at hup
      by_cases hpres : hasId D n.id = true
      · rw [if_pos hpres] at hup
        obtain ⟨d, hd, hde⟩ := List.mem_map.mp hup
        unfold applyOne at hde
        split_ifs at hde with h1 h2
        · exact Or.inr (by rw [← hde]; exact List.mem_cons_self _ _)
        · exact Or.inl (by rw [← hde]; exact hd)
        · exact Or.inl (by rw [← hde]; exact hd)
      · rw [if_neg hpres] at hup
        rcases List.mem_append.mp hup with hD | hsing
        · exact Or.inl hD
        · exact Or.inr (by rw [show e = n by simpa using hsing]; exact List.mem_cons_self _ _)
    · exact Or.inr (List.mem_cons_of_mem n hN)

theorem merge_untouched (N : List CreditCard) :
    ∀ D c, c ∈ D → (∀ n ∈ N, n.id ≠ c.id) → c ∈ mergeCards D N := by
  induction N with
  | nil => intro D c hc _; simpa [mergeCards] using hc
  | cons n N ih =>
    intro D c hc hids
    have h1 : mergeCards D (n :: N) = mergeCards (upsertCard D n) N := by
      simp [mergeCards]
    rw [h1]
    apply ih _ c _ (fun m hm => hids m (List.mem_cons_of_mem n hm))
    rw [upsertCard_eq]
    by_cases hpres : hasId D n.id = true
    · rw [if_pos hpres]
      have hcn : ¬ c.id = n.id := fun h => hids n (List.mem_cons_self n N) h.symm
      have : applyOne n c = c := by
        simp [applyOne, hcn]
      rw [← this]
      exact List.mem_map_of_mem _ hc
    · rw [if_neg hpres]
      exact List.mem_append_left _ hc

theorem errorPenalty_nonneg (es ws : List FieldIssue) : 0 ≤ errorPenalty es ws := by
  unfold errorPenalty errorWeight warningWeight
  apply le_min
  · norm_num
  · positivity

theorem errorPenalty_le_one (es ws : List FieldIssue) : errorPenalty es ws ≤ 1 :=
  min_le_left _ _

theorem nodup_map_id_inj {C : List CreditCard}
    (hnd : (C.map (fun c => c.id)).Nodup) {a b : CreditCard}
    (ha : a ∈ C) (hb : b ∈ C) (hab : a.id = b.id) : a = b :=
  List.inj_on_of_nodup_map hnd ha hb hab

/-- The claim `C1`: the merge operation is idempotent — for every dataset and
every batch of new canonical cards, merging the batch into an
already-merged dataset changes nothing: `merge(merge(D, N), N) = merge(D, N)`
(the second run finds no card-list change, so neither `version` nor
`lastUpdated` moves). -/
theorem c1_merge_idempotent (d : Dataset) (N : List CreditCard) (t1 t2 : String) :
    mergeDataset (mergeDataset d N t1) N t2 = mergeDataset d N t1 := by
  have key := mergeCards_idem d.cards N
  by_cases h : mergeCards d.cards N = d.cards
  · simp [mergeDataset, h]
  · simp only [mergeDataset, if_neg h]
    rw [key] at *
    simp [h, key]

/-- The claim `C2`: when a new card's id already exists, the stored record is
replaced exactly when the new record wins the §4.4 precedence (confidence at
least the existing one, or manually reviewed beating not-reviewed); otherwise
the existing entry is kept completely unchanged and a conflict warning is
surfaced rather than silently dropped. -/
theorem c2_merge_conflict_rule (C : List CreditCard) (n e : CreditCard)
    (hnd : (C.map (fun c => c.id)).Nodup) (he : e ∈ C) (hid : e.id = n.id) :
    (beatsExisting n e = true →
       upsertCard C n = C.map (fun d => if d = e then n else d)) ∧
    (beatsExisting n e = false → upsertCard C n = C) ∧
    warnConflict C n = !beatsExisting n e ∧
    (mergeWithWarnings C [n]).2 = (if beatsExisting n e then [] else [n.id]) := by
  have hpres : hasId C n.id = true :=
    List.any_eq_true.mpr ⟨e, he, by simp [hid]⟩
  have huniq : ∀ d ∈ C, d.id = n.id → d = e := by
    intro d hd hdn
    exact nodup_map_id_inj hnd hd he (by rw [hdn, hid])
  have hwarn : warnConflict C n = !beatsExisting n e := by
    cases hb : beatsExisting n e with
    | false =>
      refine Eq.trans ?_ rfl.symm
      simp only [Bool.not_false]
      exact List.any_eq_true.mpr ⟨e, he, by simp [hid, hb]⟩
    | true =>
      simp only [Bool.not_true]
      rw [warnConflict]
      apply List.any_eq_false.mpr
      intro d hd
      simp only [Bool.and_eq_true, decide_eq_true_eq, Bool.not_eq_true', not_and]
      intro hdn
      rw [huniq d hd hdn, hb]
      simp
  refine ⟨?_, ?_, hwarn, ?_⟩
  · intro hb
    rw [upsertCard_eq, if_pos hpres]
    apply List.map_congr_left
    intro d hd
    by_cases hde : d = e
    · subst hde
      simp [applyOne, hid, hb]
    · have hdn : ¬ d.id = n.id := fun hcon => hde (huniq d hd hcon)
      simp [applyOne, hdn, hde]
  · intro hb
    rw [upsertCard_eq, if_pos hpres]
    conv_rhs => rw [← List.map_id C]
    apply List.map_congr_left
    intro d hd
    by_cases hdn : d.id = n.id
    · have hde : d = e := huniq d hd hdn
      subst hde
      simp [applyOne, hdn, hb]
    · simp [applyOne, hdn]
  · simp only [mergeWithWarnings, List.foldl_cons, List.foldl_nil, upsertStep]
    rw [hwarn]
    cases hb : beatsExisting n e <;> simp

/-- The claim `C3`: merge is non-destructive for untouched ids — a card in
the existing dataset whose id is absent from the new batch is still present,
with all of its fields unchanged, in the merged dataset. -/
theorem c3_merge_nondestructive (d : Dataset) (N : List CreditCard) (t : String)
    (c : CreditCard) (hc : c ∈ d.cards) (hids : ∀ n ∈ N, n.id ≠ c.id) :
    c ∈ (mergeDataset d N t).cards := by
  have hm : c ∈ mergeCards d.cards N := merge_untouched N d.cards c hc hids
  by_cases h : mergeCards d.cards N = d.cards
  · simpa [mergeDataset, h] using hc
  · simpa [mergeDataset, h] using hm

theorem c2_merge_conflict_rule_witness :
    (([sampleCard "alpha" none (3 / 4) true].map (fun c => c.id)).Nodup ∧
     sampleCard "alpha" none (3 / 4) true ∈ [sampleCard "alpha" none (3 / 4) true] ∧
     (sampleCard "alpha" none (3 / 4) true).id = (sampleCard "alpha" none (1 / 2) false).id) ∧
    warnConflict [sampleCard "alpha" none (3 / 4) true] (sampleCard "alpha" none (1 / 2) false) =
      !beatsExisting (sampleCard "alpha" none (1 / 2) false) (sampleCard "alpha" none (3 / 4) true) :=
  ⟨⟨by simp, by simp, rfl⟩,
   (c2_merge_conflict_rule [sampleCard "alpha" none (3 / 4) true]
     (sampleCard "alpha" none (1 / 2) false) (sampleCard "alpha" none (3 / 4) true)
     (by simp) (by simp) rfl).2.2.1⟩

theorem c3_merge_nondestructive_witness :
    (sampleCard "alpha" none 1 false ∈
       (Dataset.mk "1.0" "2026-01-01" [sampleCard "alpha" none 1 false]).cards ∧
     (∀ n ∈ [sampleCard "beta" none 1 false],
        n.id ≠ (sampleCard "alpha" none 1 false).id)) ∧
    sampleCard "alpha" none 1 false ∈
      (mergeDataset (Dataset.mk "1.0" "2026-01-01" [sampleCard "alpha" none 1 false])
        [sampleCard "beta" none 1 false] "2026-02-01").cards :=
  ⟨⟨by simp, by intro n hn; simp at hn; subst hn; simp [sampleCard]⟩,
   c3_merge_nondestructive _ _ _ _ (by simp)
     (by intro n hn; simp at hn; subst hn; simp [sampleCard])⟩

theorem validate_manual_review_false (th : ℚ) (cand : ExtractionCandidate)
    (h : (validate th cand).manualReviewRequired = false) :
    th ≤ (validate th cand).adjustedConfidence := by
  simp only [validate, Bool.or_eq_false_iff, decide_eq_false_iff_not, not_lt] at h
  simpa [validate] using h.2

theorem buildCard_metadata (cand : ExtractionCandidate) (report : ValidationReport)
    (card : CreditCard) (h : buildCard cand report = some card) :
    card.metadata.confidence = report.adjustedConfidence ∧
    card.metadata.manualReview = report.manualReviewRequired := by
  unfold buildCard at h
  split at h
  · cases h
  · split at h
    · injection h with h'
      subst h'
      exact ⟨rfl, rfl⟩
    · cases h

theorem exportCards_wellFormed (th : ℚ) (cands : List ExtractionCandidate)
    (hC : ∀ cand ∈ cands,
      0 ≤ cand.extractionConfidence ∧ cand.extractionConfidence ≤ 1) :
    ∀ card ∈ exportCards th cands, cardWellFormed th card := by
  intro card hcard
  obtain ⟨c, hc, hbuild⟩ := List.mem_filterMap.mp hcard
  obtain ⟨hconf, hmr⟩ := buildCard_metadata c _ card hbuild
  obtain ⟨h0, h1⟩ := hC c hc
  have hadj : (validate th c).adjustedConfidence =
      c.extractionConfidence *
        (1 - errorPenalty (missingGroupErrors c.parsedFields ++ rangeErrors c.parsedFields)
              (rangeWarnings c.parsedFields)) := by
    simp [validate]
  have hp0 := errorPenalty_nonneg
    (missingGroupErrors c.parsedFields ++ rangeErrors c.parsedFields)
    (rangeWarnings c.parsedFields)
  have hp1 := errorPenalty_le_one
    (missingGroupErrors c.parsedFields ++ rangeErrors c.parsedFields)
    (rangeWarnings c.parsedFields)
  refine ⟨?_, ?_, ?_⟩
  · rw [hconf, hadj]
    apply mul_nonneg h0
    linarith
  · rw [hconf, hadj]
    have := mul_le_one₀ h1 (by linarith :
      (0 : ℚ) ≤ 1 - errorPenalty
        (missingGroupErrors c.parsedFields ++ rangeErrors c.parsedFields)
        (rangeWarnings c.parsedFields)) (by linarith)
    exact this
  · intro hmrf
    rw [hconf]
    apply validate_manual_review_false
    rw [← hmr]
    exact hmrf

/-- The claim `C4`: every canonical card in an exported dataset satisfies the
schema-completeness invariant — `metadata.confidence` lies in `[0,1]` and a
card with `manualReview = false` has confidence at least the configured
threshold. Presence and non-nullity of the required fields holds by
construction: the `CreditCard` type makes every required field total, and
`buildCard` only assembles a card when all required groups were parsed. -/
theorem c4_export_schema_complete (th : ℚ) (d : Dataset)
    (cands : List ExtractionCandidate) (now : String)
    (hD : ∀ c ∈ d.cards, cardWellFormed th c)
    (hC : ∀ cand ∈ cands,
      0 ≤ cand.extractionConfidence ∧ cand.extractionConfidence ≤ 1) :
    ∀ card ∈ (exportDataset th d cands now).cards, cardWellFormed th card := by
  intro card hcard
  unfold exportDataset at hcard
  by_cases h : mergeCards d.cards (exportCards th cands) = d.cards
  · exact hD card (by simpa [mergeDataset, h] using hcard)
  · have hm : card ∈ mergeCards d.cards (exportCards th cands) := by
      simpa [mergeDataset, h] using hcard
    rcases merge_mem_source (exportCards th cands) d.cards card hm with hold | hnew
    · exact hD card hold
    · exact exportCards_wellFormed th cands hC card hnew

theorem c4_export_schema_complete_witness :
    ((∀ c ∈ (Dataset.mk "1.0" "2026-01-01" []).cards, cardWellFormed (3 / 5) c) ∧
     (∀ cand ∈ [sampleCandidate],
        0 ≤ cand.extractionConfidence ∧ cand.extractionConfidence ≤ 1)) ∧
    (∀ card ∈ (exportDataset (3 / 5) (Dataset.mk "1.0" "2026-01-01" [])
        [sampleCandidate] "2026-02-01").cards, cardWellFormed (3 / 5) card) :=
  ⟨⟨by simp, by intro cand hc; simp at hc; subst hc; constructor <;> norm_num [sampleCandidate]⟩,
   c4_export_schema_complete (3 / 5) (Dataset.mk "1.0" "2026-01-01" [])
     [sampleCandidate] "2026-02-01" (by simp)
     (by intro cand hc; simp at hc; subst hc; constructor <;> norm_num [sampleCandidate])⟩

/-- The claim `C5`: a document whose LLM response fails to parse yields a
returned (not thrown) candidate with extraction confidence 0 and
`manualReview` forced true, and batch extraction still produces one result
per document, none of which aborts the batch. -/
theorem c5_parse_failure_recoverable (now : String) (completion : String → String)
    (parse : String → Option ParsedFields) (doc : RawDocument)
    (hfail : parse (completion doc.rawText) = none) :
    extract now completion parse doc = Except.ok
      { sourceUrl := doc.sourceUrl, extractedAt := now, modelId := "llm",
        rawModelResponse := completion doc.rawText, parsedFields := none,
        extractionConfidence := 0, manualReview := true } ∧
    (∀ docs : List RawDocument,
      (extractBatch now completion parse docs).length = docs.length ∧
      ∀ r ∈ extractBatch now completion parse docs, ∃ cand, r = Except.ok cand) := by
  constructor
  · unfold extract
    rw [hfail]
  · intro docs
    constructor
    · simp [extractBatch]
    · intro r hr
      obtain ⟨dcc, _, hdr⟩ := List.mem_map.mp hr
      unfold extract at hdr
      rcases hparse : parse (completion dcc.rawText) with _ | pf <;>
        rw [hparse] at hdr
      · exact ⟨_, hdr.symm⟩
      · exact ⟨_, hdr.symm⟩

theorem c5_parse_failure_recoverable_witness :
    ((fun _ : String => (none : Option ParsedFields)) ((fun _ : String => "bad") sampleDoc.rawText) = none) ∧
    extract "2026-01-02" (fun _ => "bad") (fun _ => none) sampleDoc = Except.ok
      { sourceUrl := sampleDoc.sourceUrl, extractedAt := "2026-01-02", modelId := "llm",
        rawModelResponse := "bad", parsedFields := none,
        extractionConfidence := 0, manualReview := true } :=
  ⟨rfl,
   (c5_parse_failure_recoverable "2026-01-02" (fun _ => "bad") (fun _ => none)
     sampleDoc rfl).1⟩

/-- The claim `C6`: the validator computes
`adjustedConfidence = extractionConfidence × (1 − errorPenalty)` and, for a
candidate with non-negative confidence, can only lower the confidence, never
raise it. -/
theorem c6_validator_only_lowers (th : ℚ) (cand : ExtractionCandidate)
    (h0 : 0 ≤ cand.extractionConfidence) :
    (validate th cand).adjustedConfidence =
      cand.extractionConfidence *
        (1 - errorPenalty (missingGroupErrors cand.parsedFields ++ rangeErrors cand.parsedFields)
              (rangeWarnings cand.parsedFields)) ∧
    (validate th cand).adjustedConfidence ≤ cand.extractionConfidence := by
  constructor
  · simp [validate]
  · have hp0 := errorPenalty_nonneg
      (missingGroupErrors cand.parsedFields ++ rangeErrors cand.parsedFields)
      (rangeWarnings cand.parsedFields)
    have heq : (validate th cand).adjustedConfidence =
        cand.extractionConfidence *
          (1 - errorPenalty (missingGroupErrors cand.parsedFields ++ rangeErrors cand.parsedFields)
                (rangeWarnings cand.parsedFields)) := by
      simp [validate]
    rw [heq]
    nlinarith

theorem c6_validator_only_lowers_witness :
    (0 : ℚ) ≤ sampleCandidate.extractionConfidence ∧
    (validate (3 / 5) sampleCandidate).adjustedConfidence ≤
      sampleCandidate.extractionConfidence :=
  ⟨by norm_num [sampleCandidate],
   (c6_validator_only_lowers (3 / 5) sampleCandidate (by norm_num [sampleCandidate])).2⟩

/-- The claim `C7`: the chat-completion entry point selects its backend from
the single environment-derived provider value — Ollama exactly when the
configured provider equals `"ollama"`, Groq in every other case, with
`"groq"` as the default when nothing is configured; the selection is a
function of the module-level environment value only, never of the per-call
message or card arguments. -/
theorem c7_provider_dispatch :
    (∀ env, selectBackend env = Backend.ollama ↔ activeProvider env = "ollama") ∧
    activeProvider none = "groq" ∧
    activeProvider (some "") = "groq" ∧
    (∀ env, activeProvider env ≠ "ollama" → selectBackend env = Backend.groq) ∧
    (∀ (α : Type) (env : Option String) (bp : List CreditCard → String)
       (oc gc : List ChatMessage → String → α) (msgs : List ChatMessage)
       (cards : List CreditCard),
       getChatCompletion env bp oc gc msgs cards =
         match selectBackend env with
         | Backend.ollama => oc msgs (bp cards)
         | Backend.groq => gc msgs (bp cards)) := by
  refine ⟨?_, rfl, rfl, ?_, ?_⟩
  · intro env
    by_cases h : activeProvider env = "ollama" <;> simp [selectBackend, h]
  · intro env h
    simp [selectBackend, h]
  · intro α env bp oc gc msgs cards
    by_cases h : activeProvider env = "ollama" <;>
      simp [getChatCompletion, selectBackend, h]

/-- The claim `C8`: toggling a card id on a duplicate-free selection of at
most four cards removes the id when present, appends it when absent with
fewer than four selected, and leaves the selection unchanged when absent
with four already selected; consequently the selection stays duplicate-free
and never exceeds four cards. -/
theorem c8_toggle_selection (sel : List String) (cid : String)
    (hnd : sel.Nodup) (hlen : sel.length ≤ 4) :
    (cid ∈ sel → toggleCardSelection sel cid = sel.filter (fun i => decide (i ≠ cid))) ∧
    (cid ∉ sel → sel.length < 4 → toggleCardSelection sel cid = sel ++ [cid]) ∧
    (cid ∉ sel → sel.length = 4 → toggleCardSelection sel cid = sel) ∧
    (toggleCardSelection sel cid).Nodup ∧
    (toggleCardSelection sel cid).length ≤ 4 := by
  refine ⟨?_, ?_, ?_, ?_, ?_⟩
  · intro hmem
    simp [toggleCardSelection, hmem]
  · intro hmem hlt
    simp [toggleCardSelection, hmem, hlt]
  · intro hmem hfour
    have : ¬ sel.length < 4 := by omega
    simp [toggleCardSelection, hmem, this]
  · unfold toggleCardSelection
    split_ifs with h1 h2
    · exact hnd.filter _
    · simp [List.nodup_append, hnd, h1]
    · exact hnd
  · unfold toggleCardSelection
    split_ifs with h1 h2
    · exact le_trans (List.length_filter_le _ _) hlen
    · simp only [List.length_append, List.length_singleton]
      omega
    · exact hlen

theorem c8_toggle_selection_witness :
    (["a", "b"].Nodup ∧ ["a", "b"].length ≤ 4) ∧
    toggleCardSelection ["a", "b"] "c" = ["a", "b"] ++ ["c"] :=
  ⟨⟨by decide, by decide⟩,
   (c8_toggle_selection ["a", "b"] "c" (by decide) (by decide)).2.1
     (by decide) (by decide)⟩

theorem rejectIssuer_false_iff (f : CardFilters) (c : CreditCard) :
    rejectIssuer f c = false ↔
      (∀ l, f.issuer = some l → l ≠ [] → c.basicInfo.issuer ∈ l) := by
  cases hf : f.issuer with
  | none => simp [rejectIssuer, hf]
  | some l =>
    simp only [rejectIssuer, hf, Bool.and_eq_false_iff, Bool.not_eq_false',
      List.isEmpty_iff, decide_eq_true_eq, Option.some.injEq]
    constructor
    · rintro (hl | hm) l' rfl hne
      · exact absurd hl hne
      · exact hm
    · intro h
      by_cases hl : l = []
      · exact Or.inl hl
      · exact Or.inr (h l rfl hl)

theorem rejectNetwork_false_iff (f : CardFilters) (c : CreditCard) :
    rejectNetwork f c = false ↔
      (∀ l, f.network = some l → l ≠ [] → ∃ n ∈ l, n ∈ c.basicInfo.network) := by
  cases hf : f.network with
  | none => simp [rejectNetwork, hf]
  | some l =>
    simp only [rejectNetwork, hf, Bool.and_eq_false_iff, Bool.not_eq_false',
      List.isEmpty_iff, List.any_eq_true, decide_eq_true_eq, Option.some.injEq]
    constructor
    · rintro (hl | hm) l' rfl hne
      · exact absurd hl hne
      · exact hm
    · intro h
      by_cases hl : l = []
      · exact Or.inl hl
      · exact Or.inr (h l rfl hl)

theorem rejectCardType_false_iff (f : CardFilters) (c : CreditCard) :
    rejectCardType f c = false ↔
      (∀ l, f.cardType = some l → l ≠ [] → c.basicInfo.cardType ∈ l) := by
  cases hf : f.cardType with
  | none => simp [rejectCardType, hf]
  | some l =>
    simp only [rejectCardType, hf, Bool.and_eq_false_iff, Bool.not_eq_false',
      List.isEmpty_iff, decide_eq_true_eq, Option.some.injEq]
    constructor
    · rintro (hl | hm) l' rfl hne
      · exact absurd hl hne
      · exact hm
    · intro h
      by_cases hl : l = []
      · exact Or.inl hl
      · exact Or.inr (h l rfl hl)

theorem rejectJoiningFee_false_iff (f : CardFilters) (c : CreditCard) :
    rejectJoiningFee f c = false ↔
      (∀ m, f.maxJoiningFee = some m → c.fees.joiningFee ≤ m) := by
  cases hf : f.maxJoiningFee with
  | none => simp [rejectJoiningFee, hf]
  | some m => simp [rejectJoiningFee, hf, not_lt]

theorem rejectAnnualFee_false_iff (f : CardFilters) (c : CreditCard) :
    rejectAnnualFee f c = false ↔
      (∀ m, f.maxAnnualFee = some m → c.fees.annualFee ≤ m) := by
  cases hf : f.maxAnnualFee with
  | none => simp [rejectAnnualFee, hf]
  | some m => simp [rejectAnnualFee, hf, not_lt]

theorem rejectRewardRate_false_iff (f : CardFilters) (c : CreditCard) :
    rejectRewardRate f c = false ↔
      (∀ m, f.minRewardRate = some m → m ≤ c.rewards.rewardRate) := by
  cases hf : f.minRewardRate with
  | none => simp [rejectRewardRate, hf]
  | some m => simp [rejectRewardRate, hf, not_lt]

theorem rejectDomesticLounge_false_iff (f : CardFilters) (c : CreditCard) :
    rejectDomesticLounge f c = false ↔
      (f.hasDomesticLounge = some true → c.loungeAccess.domestic ≠ none) := by
  rcases hf : f.hasDomesticLounge with _ | b
  · simp [rejectDomesticLounge, hf]
  · cases b
    · simp [rejectDomesticLounge, hf]
    · simp [rejectDomesticLounge, hf, Option.isNone_eq_false_iff,
        Option.isSome_iff_ne_none]

theorem rejectInternationalLounge_false_iff (f : CardFilters) (c : CreditCard) :
    rejectInternationalLounge f c = false ↔
      (f.hasInternationalLounge = some true → c.loungeAccess.international ≠ none) := by
  rcases hf : f.hasInternationalLounge with _ | b
  · simp [rejectInternationalLounge, hf]
  · cases b
    · simp [rejectInternationalLounge, hf]
    · simp [rejectInternationalLounge, hf, Option.isNone_eq_false_iff,
        Option.isSome_iff_ne_none]

theorem rejectMinSalary_false_iff (f : CardFilters) (c : CreditCard) :
    rejectMinSalary f c = false ↔
      (∀ m, f.maxMinSalary = some m →
        ∀ s, c.eligibility.minSalary = some s → s ≠ 0 → s ≤ m) := by
  cases hf : f.maxMinSalary with
  | none => simp [rejectMinSalary, hf]
  | some m =>
    cases hs : c.eligibility.minSalary with
    | none => simp [rejectMinSalary, hf, hs]
    | some s =>
      simp only [rejectMinSalary, hf, hs, Bool.and_eq_false_iff, Bool.not_eq_false',
        decide_eq_true_eq, decide_eq_false_iff_not, not_lt, Option.some.injEq]
      constructor
      · rintro (h0 | hle) m' rfl s' rfl hne
        · exact absurd h0 hne
        · exact hle
      · intro h
        by_cases h0 : s = 0
        · exact Or.inl h0
        · exact Or.inr (h m rfl s rfl h0)

theorem rejectWelcomeBonus_false_iff (f : CardFilters) (c : CreditCard) :
    rejectWelcomeBonus f c = false ↔
      (f.hasWelcomeBonus = some true → c.rewards.welcomeBonus ≠ none) := by
  rcases hf : f.hasWelcomeBonus with _ | b
  · simp [rejectWelcomeBonus, hf]
  · cases b
    · simp [rejectWelcomeBonus, hf]
    · simp [rejectWelcomeBonus, hf, Option.isNone_eq_false_iff,
        Option.isSome_iff_ne_none]

/-- Counterexample to the claim `C9` as stated: with the filter
`{ maxMinSalary := -1 }` and a card whose `eligibility.minSalary` is `0`, the
card appears in `filteredCards` (JavaScript truthiness treats the salary `0`
as falsy and skips the constraint) even though it does not satisfy the
declarative `minSalary ≤ maxMinSalary` constraint. -/
theorem c9_filter_conjunction_counterexample :
    sampleCard "s" (some 0) 1 false ∈
      filteredCards { CardFilters.empty with maxMinSalary := some (-1) }
        [sampleCard "s" (some 0) 1 false] ∧
    ¬ passesFilters { CardFilters.empty with maxMinSalary := some (-1) }
        (sampleCard "s" (some 0) 1 false) := by
  constructor
  · simp [filteredCards, filterCard, rejectIssuer, rejectNetwork, rejectCardType,
      rejectJoiningFee, rejectAnnualFee, rejectRewardRate, rejectDomesticLounge,
      rejectInternationalLounge, rejectMinSalary, rejectWelcomeBonus,
      CardFilters.empty, sampleCard]
  · intro h
    have h9 := h.2.2.2.2.2.2.2.2.1 (-1) rfl 0 rfl
    norm_num at h9

/-- The claim `C9`, amended: a card appears in `filteredCards` exactly when it
is in the input list and satisfies every active constraint, where a card
whose `eligibility.minSalary` is null **or zero** always passes the
`maxMinSalary` constraint. -/
theorem c9_filter_conjunction_amended (f : CardFilters) (cards : List CreditCard)
    (c : CreditCard) :
    c ∈ filteredCards f cards ↔ c ∈ cards ∧ passesFiltersAmended f c := by
  rw [filteredCards, List.mem_filter]
  apply and_congr_right
  intro _
  simp only [filterCard, Bool.and_eq_true, Bool.not_eq_true']
  rw [rejectIssuer_false_iff, rejectNetwork_false_iff, rejectCardType_false_iff,
    rejectJoiningFee_false_iff, rejectAnnualFee_false_iff,
    rejectRewardRate_false_iff, rejectDomesticLounge_false_iff,
    rejectInternationalLounge_false_iff, rejectMinSalary_false_iff,
    rejectWelcomeBonus_false_iff]
  unfold passesFiltersAmended
  tauto

theorem tryClients_ok_iff :
    ∀ (outs : List (Except ApiFailure String)) (errs : List String) (s : String),
      tryClients outs errs = GroqResult.ok s ↔
        ∃ pre post, outs = pre ++ Except.ok s :: post ∧ ∀ o ∈ pre, rateLimitedOutcome o := by
  intro outs
  induction outs with
  | nil =>
    intro errs s
    constructor
    · intro h; simp [tryClients] at h
    · rintro ⟨pre, post, h, -⟩
      exact absurd h.symm (by simp)
  | cons o rest ih =>
    intro errs s
    cases o with
    | ok t =>
      constructor
      · intro h
        simp only [tryClients] at h
        injection h with h'
        subst h'
        exact ⟨[], rest, rfl, by simp⟩
      · rintro ⟨pre, post, heq, hpre⟩
        cases pre with
        | nil =>
          injection heq with h1 h2
          rw [h1]
          simp [tryClients]
        | cons p pre' =>
          injection heq with h1 h2
          obtain ⟨e, hpe, -⟩ := hpre p (by simp)
          rw [← h1] at hpe
          cases hpe
    | error e =>
      cases hr : isRateLimitError e with
      | true =>
        have hstep : tryClients (Except.error e :: rest) errs =
            tryClients rest (errs ++ ["rate limited"]) := by
          simp [tryClients, hr]
        rw [hstep, ih (errs ++ ["rate limited"]) s]
        constructor
        · rintro ⟨pre, post, heq, hpre⟩
          refine ⟨Except.error e :: pre, post, by rw [heq]; rfl, ?_⟩
          intro o ho
          rcases List.mem_cons.mp ho with rfl | h'
          · exact ⟨e, rfl, hr⟩
          · exact hpre o h'
        · rintro ⟨pre, post, heq, hpre⟩
          cases pre with
          | nil =>
            injection heq with h1 h2
            cases h1
          | cons p pre' =>
            injection heq with h1 h2
            exact ⟨pre', post, h2, fun o ho => hpre o (List.mem_cons_of_mem p ho)⟩
      | false =>
        have hstep : tryClients (Except.error e :: rest) errs = GroqResult.fatal e := by
          simp [tryClients, hr]
        rw [hstep]
        constructor
        · intro h; cases h
        · rintro ⟨pre, post, heq, hpre⟩
          cases pre with
          | nil =>
            injection heq with h1 h2
            cases h1
          | cons p pre' =>
            injection heq with h1 h2
            obtain ⟨e', hpe, hre⟩ := hpre p (by simp)
            rw [← h1] at hpe
            injection hpe with h3
            rw [← h3] at hre
            rw [hre] at hr
            cases hr

theorem tryClients_fatal_iff :
    ∀ (outs : List (Except ApiFailure String)) (errs : List String) (e : ApiFailure),
      tryClients outs errs = GroqResult.fatal e ↔
        ∃ pre post, outs = pre ++ Except.error e :: post ∧
          (∀ o ∈ pre, rateLimitedOutcome o) ∧ isRateLimitError e = false := by
  intro outs
  induction outs with
  | nil =>
    intro errs e
    constructor
    · intro h; simp [tryClients] at h
    · rintro ⟨pre, post, h, -, -⟩
      exact absurd h.symm (by simp)
  | cons o rest ih =>
    intro errs e
    cases o with
    | ok t =>
      constructor
      · intro h; simp [tryClients] at h
      · rintro ⟨pre, post, heq, hpre, -⟩
        cases pre with
        | nil =>
          injection heq with h1 h2
          cases h1
        | cons p pre' =>
          injection heq with h1 h2
          obtain ⟨e', hpe, -⟩ := hpre p (by simp)
          rw [← h1] at hpe
          cases hpe
    | error e' =>
      cases hr : isRateLimitError e' with
      | true =>
        have hstep : tryClients (Except.error e' :: rest) errs =
            tryClients rest (errs ++ ["rate limited"]) := by
          simp [tryClients, hr]
        rw [hstep, ih (errs ++ ["rate limited"]) e]
        constructor
        · rintro ⟨pre, post, heq, hpre, hne⟩
          refine ⟨Except.error e' :: pre, post, by rw [heq]; rfl, ?_, hne⟩
          intro o ho
          rcases List.mem_cons.mp ho with rfl | h'
          · exact ⟨e', rfl, hr⟩
          · exact hpre o h'
        · rintro ⟨pre, post, heq, hpre, hne⟩
          cases pre with
          | nil =>
            injection heq with h1 h2
            injection h1 with h3
            rw [h3] at hr
            rw [hr] at hne
            cases hne
          | cons p pre' =>
            injection heq with h1 h2
            exact ⟨pre', post, h2, fun o ho => hpre o (List.mem_cons_of_mem p ho), hne⟩
      | false =>
        have hstep : tryClients (Except.error e' :: rest) errs = GroqResult.fatal e' := by
          simp [tryClients, hr]
        rw [hstep]
        constructor
        · intro h
          injection h with h'
          subst h'
          exact ⟨[], rest, rfl, by simp, hr⟩
        · rintro ⟨pre, post, heq, hpre, hne⟩
          cases pre with
          | nil =>
            injection heq with h1 h2
            injection h1 with h3
            rw [h3]
          | cons p pre' =>
            injection heq with h1 h2
            obtain ⟨e'', hpe, hre⟩ := hpre p (by simp)
            rw [← h1] at hpe
            injection hpe with h3
            rw [← h3] at hre
            rw [hre] at hr
            cases hr

theorem tryClients_exhausted_all :
    ∀ (outs : List (Except ApiFailure String)) (errs errs' : List String),
      tryClients outs errs = GroqResult.exhausted errs' →
      ∀ o ∈ outs, rateLimitedOutcome o := by
  intro outs
  induction outs with
  | nil => intro errs errs' _ o ho; cases ho
  | cons o rest ih =>
    intro errs errs' h p hp
    cases o with
    | ok t => simp [tryClients] at h
    | error e =>
      cases hr : isRateLimitError e with
      | true =>
        have hstep : tryClients (Except.error e :: rest) errs =
            tryClients rest (errs ++ ["rate limited"]) := by
          simp [tryClients, hr]
        rw [hstep] at h
        rcases List.mem_cons.mp hp with rfl | h'
        · exact ⟨e, rfl, hr⟩
        · exact ih (errs ++ ["rate limited"]) errs' h p h'
      | false =>
        have hstep : tryClients (Except.error e :: rest) errs = GroqResult.fatal e := by
          simp [tryClients, hr]
        rw [hstep] at h
        cases h

theorem tryClients_all_rate :
    ∀ (outs : List (Except ApiFailure String)) (errs : List String),
      (∀ o ∈ outs, rateLimitedOutcome o) →
      ∃ errs', tryClients outs errs = GroqResult.exhausted errs' := by
  intro outs
  induction outs with
  | nil => intro errs _; exact ⟨errs, rfl⟩
  | cons o rest ih =>
    intro errs hall
    obtain ⟨e, ho, hr⟩ := hall o (by simp)
    subst ho
    have hstep : tryClients (Except.error e :: rest) errs =
        tryClients rest (errs ++ ["rate limited"]) := by
      simp [tryClients, hr]
    rw [hstep]
    exact ih (errs ++ ["rate limited"])
      (fun o ho => hall o (List.mem_cons_of_mem _ ho))

/-- The claim `C10`: with zero configured keys `getGroqCompletion` throws
immediately; otherwise it walks the (shuffled) clients one at a time — a
success is returned as soon as one occurs, a non-rate-limit error is rethrown
at once without trying further keys, a rate-limit error (status 429 or a
message containing `429`/`rate limit`) moves on to the next key, and the
"all keys exhausted" error is thrown exactly when every key was
rate-limited. -/
theorem c10_groq_failover :
    getGroqCompletion [] = GroqResult.noKeys ∧
    (∀ outs s, getGroqCompletion outs = GroqResult.ok s ↔
       ∃ pre post, outs = pre ++ Except.ok s :: post ∧
         ∀ o ∈ pre, rateLimitedOutcome o) ∧
    (∀ outs e, getGroqCompletion outs = GroqResult.fatal e ↔
       ∃ pre post, outs = pre ++ Except.error e :: post ∧
         (∀ o ∈ pre, rateLimitedOutcome o) ∧ isRateLimitError e = false) ∧
    (∀ outs errs, getGroqCompletion outs = GroqResult.exhausted errs →
       outs ≠ [] ∧ ∀ o ∈ outs, rateLimitedOutcome o) ∧
    (∀ outs, outs ≠ [] → (∀ o ∈ outs, rateLimitedOutcome o) →
       ∃ errs, getGroqCompletion outs = GroqResult.exhausted errs) := by
  refine ⟨rfl, ?_, ?_, ?_, ?_⟩
  · intro outs s
    cases outs with
    | nil =>
      constructor
      · intro h; cases h
      · rintro ⟨pre, post, h, -⟩
        exact absurd h.symm (by simp)
    | cons o rest =>
      have : getGroqCompletion (o :: rest) = tryClients (o :: rest) [] := by
        simp [getGroqCompletion]
      rw [this, tryClients_ok_iff]
  · intro outs e
    cases outs with
    | nil =>
      constructor
      · intro h; cases h
      · rintro ⟨pre, post, h, -, -⟩
        exact absurd h.symm (by simp)
    | cons o rest =>
      have : getGroqCompletion (o :: rest) = tryClients (o :: rest) [] := by
        simp [getGroqCompletion]
      rw [this, tryClients_fatal_iff]
  · intro outs errs h
    cases outs with
    | nil => cases h
    | cons o rest =>
      have hg : getGroqCompletion (o :: rest) = tryClients (o :: rest) [] := by
        simp [getGroqCompletion]
      rw [hg] at h
      exact ⟨by simp, tryClients_exhausted_all (o :: rest) [] errs h⟩
  · intro outs hne hall
    cases outs with
    | nil => exact absurd rfl hne
    | cons o rest =>
      have hg : getGroqCompletion (o :: rest) = tryClients (o :: rest) [] := by
        simp [getGroqCompletion]
      rw [hg]
      exact tryClients_all_rate (o :: rest) [] hall
